import Mathlib

/-!
# Verification development for the Oba bytecode interpreter

Shallow embedding of the Oba compiler (single-pass Pratt parser, from
`oba_compiler.c`) and virtual machine (`oba_vm.c`), translated from the C
sources.  Machine integers are modelled as `Nat`/`Int`; the VM's numbers
(C `double`) are modelled as `Int`, which agrees with IEEE-754 doubles on
the integral values that occur in the claims.  C arrays are modelled as
lists (with the write index tracked explicitly where a bounds question is
at stake), and C functions that the VM loops on unboundedly take an
explicit fuel argument.
-/

namespace Oba

/-- An interned string object (`ObjString`): its characters together with the
hash field stored on the object.  The hash-computing function lives in
`oba_value.c`, which is not part of the sources; only the stored field is
read by the table code below. -/
structure ObaStr where
  chars : List Char
  hash : Nat
deriving DecidableEq, Repr

/-- Modelled from the spec: `hashString` (in `oba_value.c`, not under the
sources) is "a deterministic byte-level hash (FNV-1a is the intended
family)"; we model it as 32-bit FNV-1a over the characters. -/
def hashString (chars : List Char) : Nat :=
  chars.foldl (fun h c => ((h ^^^ c.toNat) * 16777619) % 4294967296) 2166136261

/-- `copyString`: allocate a string object for the given characters, with its
hash precomputed. -/
def copyString (chars : List Char) : ObaStr :=
  ⟨chars, hashString chars⟩

/-- The runtime `Value` tagged union: numbers (C doubles, modelled as `Int`),
booleans, and heap objects (strings and functions).  A function value
carries its arity, bytecode, constant pool and an allocation identity
(objects compare by reference). -/
inductive Value where
  | vnum (n : Int)
  | vbool (b : Bool)
  | vstr (s : ObaStr)
  | vfn (arity : Nat) (code : List Nat) (constants : List Value) (objId : Nat)
deriving Repr

/-- An `ObjFunction`, as referenced from a call frame. -/
structure VFunc where
  arity : Nat
  code : List Nat
  constants : List Value
  objId : Nat
deriving Repr

/-- Junk value standing for uninitialized C memory; never relied upon by any
theorem. -/
def junkV : Value := .vbool false

def Value.isNumberV : Value → Bool
  | .vnum _ => true
  | _ => false

def Value.isStringV : Value → Bool
  | .vstr _ => true
  | _ => false

/-- `IS_OBJ(v) && OBJ_TYPE(v) == OBJ_FUNCTION`: the callability test of
`callValue`. -/
def isFunctionV : Value → Bool
  | .vfn _ _ _ _ => true
  | _ => false

/-- `AS_STRING`: read a value as a string object (junk on a non-string, which
is undefined behavior in C and unreachable in the modelled runs). -/
def Value.asString : Value → ObaStr
  | .vstr s => s
  | _ => ⟨[], 0⟩

/-- Modelled from the spec: `valuesEqual` lives in `oba_value.c`, which is not
under the sources.  Equality is same-tag and same-payload; strings compare
by content, other objects by reference (allocation identity). -/
def valuesEqual : Value → Value → Bool
  | .vnum a, .vnum b => a == b
  | .vbool a, .vbool b => a == b
  | .vstr a, .vstr b => a.chars == b.chars
  | .vfn _ _ _ i, .vfn _ _ _ j => i == j
  | _, _ => false

-- Hash Table -----------------------------------------------------------------

/-- A table `Entry`: `key == NULL` marks an empty slot.  The value of an empty
slot is uninitialized in C (see the TODO in `adjustCapacity`); we use a junk
value. -/
structure Entry where
  key : Option ObaStr
  value : Value

def emptyEntry : Entry := ⟨none, junkV⟩

/-- The probe-loop stopping test of `findEntry`: stop at an empty slot or at a
slot whose stored key has the probed hash.  Note the byte contents of the
keys are *not* compared (the C code carries a TODO about this). -/
def isStopEntry (e : Entry) (h : Nat) : Bool :=
  match e.key with
  | none => true
  | some k => k.hash == h

/-- The probe loop of `findEntry`: starting at slot `i`, scan linearly
(wrapping modulo the capacity) until a stopping slot is found.  The C loop
is unbounded; fuel equal to the capacity makes the model return `none`
exactly when the C loop would cycle forever. -/
def findIdx (entries : List Entry) (h : Nat) : Nat → Nat → Option Nat
  | _, 0 => none
  | i, fuel + 1 =>
    if isStopEntry (entries.getD i emptyEntry) h then some i
    else findIdx entries h ((i + 1) % entries.length) fuel

/-- `findEntry`: returns the index of the slot for `key` (the C function
returns a pointer to it). -/
def findEntry (entries : List Entry) (key : ObaStr) : Option Nat :=
  findIdx entries key.hash (key.hash % entries.length) entries.length

/-- The hash table over string keys (`struct sTable`).  The C `capacity` field
always equals the length of the allocated entry array, so the model uses
`entries.length` for it. -/
structure Table where
  count : Nat
  entries : List Entry

def initTable : Table := ⟨0, []⟩

/-- `tableGet`: look the key up; empty tables and empty slots miss. -/
def tableGet (table : Table) (key : ObaStr) : Option Value :=
  if table.count = 0 then none
  else
    match findEntry table.entries key with
    | none => none
    | some i =>
      let e := table.entries.getD i emptyEntry
      match e.key with
      | none => none
      | some _ => some e.value

/-- `GROW_CAPACITY` from `oba_common.h`. -/
def growCapacity (cap : Nat) : Nat := if cap < 8 then 8 else cap * 2

/-- One reinsertion step of `adjustCapacity`: empty source slots are skipped,
others are placed at the slot `findEntry` chooses in the new array.  When
`findEntry` finds no slot the C loop diverges; the model leaves the array
unchanged (unreachable: the new array always keeps an empty slot). -/
def reinsertEntry (acc : List Entry) (e : Entry) : List Entry :=
  match e.key with
  | none => acc
  | some k =>
    match findEntry acc k with
    | none => acc
    | some j => acc.set j e

/-- `adjustCapacity`: allocate `cap` empty slots and reinsert every non-empty
entry.  The `count` field is not recomputed, exactly as in C. -/
def adjustCapacity (table : Table) (cap : Nat) : Table :=
  ⟨table.count, table.entries.foldl reinsertEntry (List.replicate cap emptyEntry)⟩

/-- The grow test of `tableSet`: `count <= capacity * TABLE_MAX_LOAD` with
`TABLE_MAX_LOAD = 0.75` (the macro's header is not under the sources; 0.75
is the spec's load factor).  The comparison is exact, so it is
`4 * count ≤ 3 * capacity` over the integers. -/
def tableNeedsGrow (table : Table) : Bool :=
  4 * table.count ≤ 3 * table.entries.length

/-- `tableSet`: (always, given the direction of the grow test) grow and
rehash, then write the key and value at the probed slot, incrementing
`count` only when the slot was empty.  A failed probe models the C
infinite loop and leaves the table unchanged (unreachable from reachable
tables). -/
def tableSet (table : Table) (key : ObaStr) (value : Value) : Table :=
  let t := if tableNeedsGrow table
           then adjustCapacity table (growCapacity table.entries.length)
           else table
  match findEntry t.entries key with
  | none => t
  | some i =>
    let isNewKey := (t.entries.getD i emptyEntry).key = none
    ⟨t.count + (if isNewKey then 1 else 0), t.entries.set i ⟨some key, value⟩⟩

-- Opcodes --------------------------------------------------------------------

/-- The opcode set of the VM dispatch loop (the `OPCODE` X-macro header is not
under the sources; the byte numbering below is a model choice; no claim
depends on the particular numbers, only on their distinctness). -/
inductive Op where
  | opConstant | opAdd | opMinus | opMultiply | opDivide
  | opNot | opGt | opLt | opGte | opLte | opEq | opNeq
  | opTrue | opFalse
  | opJump | opJumpIfFalse | opJumpIfTrue | opJumpIfNotMatch | opLoop
  | opDefineGlobal | opGetGlobal | opSetLocal | opGetLocal
  | opSwapStackTop | opCall | opReturn | opPop | opDebug | opExit
  | opAssign
deriving DecidableEq, Repr

def opByte : Op → Nat
  | .opConstant => 0 | .opAdd => 1 | .opMinus => 2 | .opMultiply => 3
  | .opDivide => 4 | .opNot => 5 | .opGt => 6 | .opLt => 7
  | .opGte => 8 | .opLte => 9 | .opEq => 10 | .opNeq => 11
  | .opTrue => 12 | .opFalse => 13 | .opJump => 14 | .opJumpIfFalse => 15
  | .opJumpIfTrue => 16 | .opJumpIfNotMatch => 17 | .opLoop => 18
  | .opDefineGlobal => 19 | .opGetGlobal => 20 | .opSetLocal => 21
  | .opGetLocal => 22 | .opSwapStackTop => 23 | .opCall => 24
  | .opReturn => 25 | .opPop => 26 | .opDebug => 27 | .opExit => 28
  | .opAssign => 29

def byteToOp : Nat → Option Op
  | 0 => some .opConstant | 1 => some .opAdd | 2 => some .opMinus
  | 3 => some .opMultiply | 4 => some .opDivide | 5 => some .opNot
  | 6 => some .opGt | 7 => some .opLt | 8 => some .opGte | 9 => some .opLte
  | 10 => some .opEq | 11 => some .opNeq | 12 => some .opTrue
  | 13 => some .opFalse | 14 => some .opJump | 15 => some .opJumpIfFalse
  | 16 => some .opJumpIfTrue | 17 => some .opJumpIfNotMatch
  | 18 => some .opLoop | 19 => some .opDefineGlobal | 20 => some .opGetGlobal
  | 21 => some .opSetLocal | 22 => some .opGetLocal
  | 23 => some .opSwapStackTop | 24 => some .opCall | 25 => some .opReturn
  | 26 => some .opPop | 27 => some .opDebug | 28 => some .opExit
  | 29 => some .opAssign
  | _ => none

theorem byteToOp_opByte (o : Op) : byteToOp (opByte o) = some o := by
  cases o <;> rfl

-- VM -------------------------------------------------------------------------

/-- `STACK_MAX` from `oba_vm.h`: the value stack is a fixed array of 256
values (slots 0..255). -/
def STACK_MAX : Nat := 256

/-- `FRAMES_MAX` from `oba_vm.h`: the frame array is a fixed array of 256
frames (slots 0..255). -/
def FRAMES_MAX : Nat := 256

/-- A `CallFrame`: function pointer (NULL modelled as `none`), instruction
pointer as an index into the function's code, and the frame's stack window
base as an index from the bottom of the value stack. -/
structure Frame where
  function : Option VFunc
  ip : Nat
  slots : Nat
deriving Repr

def emptyFrame : Frame := ⟨none, 0, 0⟩

/-- The VM state.  The value stack is a list with its head at the *top* (so
`peek(vm, k)` is index `k - 1` and `stackTop` is the length); the frame
array is modelled as a total map so that the write index of an
out-of-bounds frame write remains observable; `frameIndex` is
`vm->frame - vm->frames`.  `output` collects the values printed by
`OP_DEBUG`. -/
structure VMState where
  stack : List Value
  frames : Nat → Frame
  frameIndex : Nat
  globals : Table
  output : List Value

/-- Pointwise update of the frame array. -/
def updFrames (fs : Nat → Frame) (i : Nat) (fr : Frame) : Nat → Frame :=
  fun j => if j = i then fr else fs j

/-- `resetStack`. -/
def resetStack (vm : VMState) : VMState := { vm with stack := [] }

/-- `runtimeError`: print a message (not modelled) and reset the stack.  The
frame pointer is *not* touched. -/
def runtimeError (vm : VMState) : VMState := resetStack vm

/-- Result of one dispatch step: continue, runtime error (the enclosing `run`
returns `RUNTIME_ERROR`), or halt (`OP_EXIT`, `run` returns `SUCCESS`). -/
inductive StepRes where
  | ok (vm : VMState)
  | err (vm : VMState)
  | halt (vm : VMState)

/-- `call`: advance the frame pointer first, then test `frame - frames >
FRAMES_MAX` (note: on the error path the incremented pointer persists, and
the test lets the write at index `FRAMES_MAX` itself through).  The new
frame's window base is `stackTop - arity - 1`. -/
def call (vm : VMState) (fn : VFunc) (arity : Nat) : StepRes :=
  let fi := vm.frameIndex + 1
  if FRAMES_MAX < fi then .err (runtimeError { vm with frameIndex := fi })
  else
    .ok { vm with
          frameIndex := fi,
          frames := updFrames vm.frames fi
            ⟨some fn, 0, vm.stack.length - arity - 1⟩ }

/-- `callValue`: only `OBJ_FUNCTION` values are callable; anything else is a
runtime error.  The function's arity is *not* compared with the argument
count. -/
def callValue (vm : VMState) (v : Value) (arity : Nat) : StepRes :=
  match v with
  | .vfn a c k i => call vm ⟨a, c, k, i⟩ arity
  | _ => .err (runtimeError vm)

/-- `concatenate`: pop two strings and push their concatenation (the result's
hash comes from `takeString`, i.e. `hashString`). -/
def concatenate (a b : ObaStr) : Value :=
  .vstr (copyString (a.chars ++ b.chars))

/-- The `BINARY_OP` macro: if both operands are numbers, pop them and push
`f a b`; otherwise if both are strings, concatenate (this branch applies
to *every* binary opcode, comparisons included — the source carries a
`Bug!` comment about it); otherwise runtime error.  `adv` is the state
with the instruction pointer already advanced past the opcode. -/
def binaryOp (vm adv : VMState) (f : Int → Int → Value) : StepRes :=
  match vm.stack.getD 0 junkV, vm.stack.getD 1 junkV with
  | .vnum b, .vnum a => .ok { adv with stack := f a b :: vm.stack.drop 2 }
  | .vstr b, .vstr a => .ok { adv with stack := concatenate a b :: vm.stack.drop 2 }
  | _, _ => .err (runtimeError adv)

/-- `READ_SHORT`: big-endian 16-bit operand. -/
def readShort (code : List Nat) (ip : Nat) : Nat :=
  ((code.getD ip 255) * 256 + code.getD (ip + 1) 255) % 65536

/-- One iteration of the dispatch loop `run`.  Reads the opcode byte at the
current frame's instruction pointer and executes it.  A byte with no case
in the switch falls through and the loop continues (the C switch has no
default).  A frame with a NULL function pointer is a NULL dereference in C;
the model halts there (unreachable in the modelled runs). -/
def step (vm : VMState) : StepRes :=
  let fr := vm.frames vm.frameIndex
  match fr.function with
  | none => .halt vm
  | some fn =>
    let adv := fun (n : Nat) =>
      { vm with frames := updFrames vm.frames vm.frameIndex { fr with ip := fr.ip + n } }
    match byteToOp (fn.code.getD fr.ip 255) with
    | none => .ok (adv 1)
    | some op =>
      match op with
      | .opConstant =>
        .ok { adv 2 with
              stack := fn.constants.getD (fn.code.getD (fr.ip + 1) 255) junkV :: vm.stack }
      | .opAdd => binaryOp vm (adv 1) (fun a b => .vnum (a + b))
      | .opMinus => binaryOp vm (adv 1) (fun a b => .vnum (a - b))
      | .opMultiply => binaryOp vm (adv 1) (fun a b => .vnum (a * b))
      | .opDivide => binaryOp vm (adv 1) (fun a b => .vnum (a / b))
      | .opNot =>
        match vm.stack.getD 0 junkV with
        | .vbool b => .ok { adv 1 with stack := .vbool (!b) :: vm.stack.drop 1 }
        | _ => .err (runtimeError (adv 1))
      | .opGt => binaryOp vm (adv 1) (fun a b => .vbool (decide (a > b)))
      | .opLt => binaryOp vm (adv 1) (fun a b => .vbool (decide (a < b)))
      | .opGte => binaryOp vm (adv 1) (fun a b => .vbool (decide (a ≥ b)))
      | .opLte => binaryOp vm (adv 1) (fun a b => .vbool (decide (a ≤ b)))
      | .opEq =>
        .ok { adv 1 with
              stack := .vbool (valuesEqual (vm.stack.getD 1 junkV) (vm.stack.getD 0 junkV))
                :: vm.stack.drop 2 }
      | .opNeq =>
        .ok { adv 1 with
              stack := .vbool (!valuesEqual (vm.stack.getD 1 junkV) (vm.stack.getD 0 junkV))
                :: vm.stack.drop 2 }
      | .opTrue => .ok { adv 1 with stack := .vbool true :: vm.stack }
      | .opFalse => .ok { adv 1 with stack := .vbool false :: vm.stack }
      | .opJump => .ok (adv (3 + readShort fn.code (fr.ip + 1)))
      | .opJumpIfFalse =>
        match vm.stack.getD 0 junkV with
        | .vbool b =>
          .ok (adv (3 + if b then 0 else readShort fn.code (fr.ip + 1)))
        | _ => .err (runtimeError (adv 1))
      | .opJumpIfTrue =>
        match vm.stack.getD 0 junkV with
        | .vbool b =>
          .ok (adv (3 + if b then readShort fn.code (fr.ip + 1) else 0))
        | _ => .err (runtimeError (adv 1))
      | .opJumpIfNotMatch =>
        let a := vm.stack.getD 1 junkV
        let b := vm.stack.getD 0 junkV
        .ok { adv (3 + if valuesEqual b a then 0 else readShort fn.code (fr.ip + 1)) with
              stack := vm.stack.drop 1 }
      | .opLoop =>
        .ok { vm with
              frames := updFrames vm.frames vm.frameIndex
                { fr with ip := readShort fn.code (fr.ip + 1) } }
      | .opDefineGlobal =>
        let name := (fn.constants.getD (fn.code.getD (fr.ip + 1) 255) junkV).asString
        .ok { adv 2 with
              globals := tableSet vm.globals name (vm.stack.getD 0 junkV),
              stack := vm.stack.drop 1 }
      | .opGetGlobal =>
        let name := (fn.constants.getD (fn.code.getD (fr.ip + 1) 255) junkV).asString
        match tableGet vm.globals name with
        | none => .err (runtimeError (adv 2))
        | some v => .ok { adv 2 with stack := v :: vm.stack }
      | .opSetLocal =>
        let slot := fn.code.getD (fr.ip + 1) 255
        .ok { adv 2 with
              stack := vm.stack.set (vm.stack.length - 1 - (fr.slots + slot))
                (vm.stack.getD 0 junkV) }
      | .opGetLocal =>
        let slot := fn.code.getD (fr.ip + 1) 255
        .ok { adv 2 with
              stack := vm.stack.getD (vm.stack.length - 1 - (fr.slots + slot)) junkV
                :: vm.stack }
      | .opSwapStackTop =>
        .ok { adv 1 with
              stack := match vm.stack with
                       | top :: next :: rest => next :: top :: rest
                       | s => s }
      | .opCall =>
        let argCount := fn.code.getD (fr.ip + 1) 255
        callValue (adv 2) (vm.stack.getD argCount junkV) argCount
      | .opReturn =>
        .ok { vm with
              stack := vm.stack.getD 0 junkV
                :: vm.stack.drop (vm.stack.length - fr.slots),
              frames := updFrames vm.frames vm.frameIndex emptyFrame,
              frameIndex := vm.frameIndex - 1 }
      | .opPop => .ok { adv 1 with stack := vm.stack.drop 1 }
      | .opDebug =>
        .ok { adv 1 with
              stack := vm.stack.drop 1,
              output := vm.output ++ [vm.stack.getD 0 junkV] }
      | .opExit => .halt (adv 1)
      | .opAssign => .ok (adv 1)

-- Compiler: tokens and lexer --------------------------------------------------

/-- Token kinds, in the order of the compiler's grammar-rule table. -/
inductive TokenType where
  | tokNot | tokAssign | tokGt | tokLt | tokGte | tokLte | tokEq | tokNeq
  | tokLparen | tokRparen | tokLbrack | tokRbrack
  | tokPlus | tokMinus | tokMultiply | tokDivide
  | tokIdent | tokNumber | tokString | tokNewline
  | tokDebug | tokLet | tokTrue | tokFalse | tokError | tokEof
deriving DecidableEq, Repr

/-- A token: kind, lexeme, source line and (for numbers) the numeric value.
In C the `value` field is only written for number tokens and stale
otherwise; the model writes a junk value there. -/
structure Token where
  type : TokenType
  lexeme : List Char
  line : Nat
  value : Value
deriving Repr

/-- `isName` from the lexer: C `isalpha` (ASCII) or underscore. -/
def isNameChar (c : Char) : Bool :=
  ('a' ≤ c && c ≤ 'z') || ('A' ≤ c && c ≤ 'Z') || c = '_'

def isDigitChar (c : Char) : Bool := '0' ≤ c && c ≤ '9'

/-- The keyword table. -/
def keywordType (chars : List Char) : TokenType :=
  if chars = "debug".data then .tokDebug
  else if chars = "false".data then .tokFalse
  else if chars = "let".data then .tokLet
  else if chars = "true".data then .tokTrue
  else .tokIdent

/-- `strtod` on a digits-only lexeme. -/
def digitsToNat (chars : List Char) : Nat :=
  chars.foldl (fun n c => 10 * n + (c.toNat - 48)) 0

/-- Consume characters while the predicate holds (the loops of `readName` and
`readNumber`). -/
def readWhile (p : Char → Bool) : List Char → List Char × List Char
  | [] => ([], [])
  | c :: r =>
    if p c then
      let (a, b) := readWhile p r
      (c :: a, b)
    else ([], c :: r)

/-- `readString`'s loop: consume up to (and including) the closing quote,
returning the content, the remaining input, and the number of newlines
consumed.  A missing closing quote reads past the buffer in C (UB); the
model stops at the end of input. -/
def readStr : List Char → List Char × List Char × Nat
  | [] => ([], [], 0)
  | c :: r =>
    if c = '"' then ([], r, 0)
    else
      let (a, b, n) := readStr r
      (c :: a, b, n + if c = '\n' then 1 else 0)

/-- The result of lexing one token: kind, lexeme, token value, remaining
input, updated current line, the token's own line, and whether a lexical
error was reported. -/
structure LexRes where
  tt : TokenType
  lexeme : List Char
  value : Value
  rest : List Char
  line : Nat
  tokLine : Nat
  lexErr : Bool
deriving Repr

/-- `skipLineComment` and the continuation of the scanning loop after it: a
line comment runs up to the newline, so the next token is the `NEWLINE`
for that line, or `EOF` at the end of input. -/
def lexComment : List Char → Nat → LexRes
  | [], line => ⟨.tokEof, [], junkV, [], line, line, false⟩
  | c :: r, line =>
    if c = '\n' then ⟨.tokNewline, [c], junkV, r, line + 1, line, false⟩
    else lexComment r line

/-- One step of the lexer (the scanning loop inside `nextToken`): skip
whitespace and comments, then produce the next token. -/
def lexNext : List Char → Nat → LexRes
  | [], line => ⟨.tokEof, [], junkV, [], line, line, false⟩
  | c :: r, line =>
    if c = ' ' ∨ c = '\r' ∨ c = '\t' then lexNext r line
    else if c = '\n' then ⟨.tokNewline, [c], junkV, r, line + 1, line, false⟩
    else if c = '(' then ⟨.tokLparen, [c], junkV, r, line, line, false⟩
    else if c = ')' then ⟨.tokRparen, [c], junkV, r, line, line, false⟩
    else if c = '{' then ⟨.tokLbrack, [c], junkV, r, line, line, false⟩
    else if c = '}' then ⟨.tokRbrack, [c], junkV, r, line, line, false⟩
    else if c = '+' then ⟨.tokPlus, [c], junkV, r, line, line, false⟩
    else if c = '-' then ⟨.tokMinus, [c], junkV, r, line, line, false⟩
    else if c = '*' then ⟨.tokMultiply, [c], junkV, r, line, line, false⟩
    else if c = '!' then
      match r with
      | '=' :: r2 => ⟨.tokNeq, ['!', '='], junkV, r2, line, line, false⟩
      | _ => ⟨.tokNot, [c], junkV, r, line, line, false⟩
    else if c = '>' then
      match r with
      | '=' :: r2 => ⟨.tokGte, ['>', '='], junkV, r2, line, line, false⟩
      | _ => ⟨.tokGt, [c], junkV, r, line, line, false⟩
    else if c = '<' then
      match r with
      | '=' :: r2 => ⟨.tokLte, ['<', '='], junkV, r2, line, line, false⟩
      | _ => ⟨.tokLt, [c], junkV, r, line, line, false⟩
    else if c = '=' then
      match r with
      | '=' :: r2 => ⟨.tokEq, ['=', '='], junkV, r2, line, line, false⟩
      | _ => ⟨.tokAssign, [c], junkV, r, line, line, false⟩
    else if c = '/' then
      match r with
      | '/' :: r2 => lexComment r2 line
      | _ => ⟨.tokDivide, [c], junkV, r, line, line, false⟩
    else if c = '"' then
      let (a, b, n) := readStr r
      ⟨.tokString, '"' :: (a ++ ['"']), junkV, b, line + n, line + n, false⟩
    else if isNameChar c then
      let (a, b) := readWhile (fun x => isNameChar x || isDigitChar x) r
      ⟨keywordType (c :: a), c :: a, junkV, b, line, line, false⟩
    else if isDigitChar c then
      let (a, b) := readWhile isDigitChar r
      ⟨.tokNumber, c :: a, .vnum (digitsToNat (c :: a)), b, line, line, false⟩
    else ⟨.tokError, [], junkV, r, line, line, true⟩

-- Compiler: parser state and emission -----------------------------------------

/-- The combined parser/compiler state: `Parser` (token stream, error flag),
`sCompiler` (locals counter, scope depth) and the chunk being emitted
(code bytes and constant pool). -/
structure CState where
  rest : List Char
  line : Nat
  current : Token
  previous : Token
  hasError : Bool
  localCount : Nat
  currentScope : Nat
  code : List Nat
  constants : List Value
deriving Repr

/-- `nextToken`: shift `current` into `previous`; nothing more once the end
of input was reached. -/
def nextToken (s : CState) : CState :=
  let s := { s with previous := s.current }
  if s.current.type = .tokEof then s
  else
    let r := lexNext s.rest s.line
    { s with current := ⟨r.tt, r.lexeme, r.tokLine, r.value⟩,
             rest := r.rest, line := r.line,
             hasError := s.hasError || r.lexErr }

/-- `error` / `lexError`: record that compilation failed (the printed message
is not modelled). -/
def errS (s : CState) : CState := { s with hasError := true }

/-- `consume`: advance past a token that must have the expected kind,
reporting an error and attempting to resynchronize otherwise. -/
def consume (s : CState) (expected : TokenType) : CState :=
  let s := nextToken s
  if s.previous.type = expected then s
  else
    let s := errS s
    if s.current.type = expected then nextToken s else s

/-- `match`: advance iff the upcoming token has the expected kind. -/
def matchTok (s : CState) (expected : TokenType) : CState × Bool :=
  if s.current.type = expected then (nextToken s, true) else (s, false)

def emitByte (s : CState) (b : Nat) : CState := { s with code := s.code ++ [b] }

def emitOp (s : CState) (o : Op) : CState := emitByte s (opByte o)

/-- `addConstant`: append to the pool, return the new constant's index. -/
def addConstant (s : CState) (v : Value) : CState × Nat :=
  ({ s with constants := s.constants ++ [v] }, s.constants.length)

def emitConstant (s : CState) (v : Value) : CState :=
  let (s, i) := addConstant s v
  emitByte (emitOp s .opConstant) i

def emitBool (s : CState) (b : Bool) : CState :=
  if b then emitOp s .opTrue else emitOp s .opFalse

/-- `lookupLocal`: the C function unconditionally returns −1 ("not found"),
whatever the state of the locals table. -/
def lookupLocal (_s : CState) (_name : Value) : Int := -1

/-- `addLocal`: the C function reads `locals[localCount++]` into a local
*copy* and assigns the scope and token into that copy, so the only lasting
effect is the incremented counter. -/
def addLocal (s : CState) : CState := { s with localCount := s.localCount + 1 }

/-- `declareVariable`: at block scope, a local (no constant, dummy index 0);
at top level, a named constant. -/
def declareVariable (s : CState) (name : Value) : CState × Nat :=
  if 0 < s.currentScope then (addLocal s, 0) else addConstant s name

/-- `defineVariable`: locals live on the stack (nothing emitted); globals get
`OP_DEFINE_GLOBAL`. -/
def defineVariable (s : CState) (varIdx : Nat) : CState :=
  if 0 < s.currentScope then s else emitByte (emitOp s .opDefineGlobal) varIdx

def getGlobal (s : CState) (name : Value) : CState :=
  let (s, g) := addConstant s name
  emitByte (emitOp s .opGetGlobal) g

def getLocal (s : CState) (name : Value) : CState :=
  let (s, g) := addConstant s name
  emitByte (emitOp s .opGetLocal) g

/-- `getVariable`: locals first (but `lookupLocal` never finds one), else a
global access. -/
def getVariable (s : CState) (name : Value) : CState :=
  if lookupLocal s name < 0 then getGlobal s name else getLocal s name

-- Compiler: grammar -----------------------------------------------------------

/-- The precedence column of the grammar-rule table
(`NONE=0 < LOWEST=1 < COND=2 < SUM=3 < PRODUCT=4`). -/
def precOf : TokenType → Nat
  | .tokAssign | .tokGt | .tokLt | .tokGte | .tokLte | .tokEq | .tokNeq => 2
  | .tokPlus | .tokMinus => 3
  | .tokMultiply | .tokDivide => 4
  | _ => 0

/-- Which prefix handler a token's grammar rule carries. -/
inductive PfxKind where
  | grouping | unary | ident | literal | strLit
deriving DecidableEq, Repr

def pfxRule : TokenType → Option PfxKind
  | .tokNot => some .unary
  | .tokLparen => some .grouping
  | .tokIdent => some .ident
  | .tokNumber => some .literal
  | .tokTrue => some .literal
  | .tokFalse => some .literal
  | .tokString => some .strLit
  | _ => none

/-- Whether a token's grammar rule carries the infix-operator handler. -/
def hasInfixRule : TokenType → Bool
  | .tokAssign | .tokGt | .tokLt | .tokGte | .tokLte | .tokEq | .tokNeq
  | .tokPlus | .tokMinus | .tokMultiply | .tokDivide => true
  | _ => false

/-- `identifier`: resolve the name of the previous token. -/
def identifier (s : CState) : CState :=
  getVariable s (.vstr (copyString s.previous.lexeme))

/-- `literal`: booleans and numbers. -/
def literal (s : CState) : CState :=
  match s.previous.type with
  | .tokTrue => emitBool s true
  | .tokFalse => emitBool s false
  | .tokNumber => emitConstant s s.previous.value
  | _ => errS s

/-- `string`: the lexeme minus the surrounding quotes becomes a string
constant. -/
def stringLit (s : CState) : CState :=
  emitConstant s (.vstr (copyString (s.previous.lexeme.drop 1).dropLast))

-- The Pratt parser and the statement grammar, from `parse`, `declaration`
-- and friends.  The C functions recurse through the grammar without an
-- explicit bound; every function here consumes one unit of fuel per call, so
-- the fuel bounds the recursion depth (exhaustion marks the compile failed,
-- which never fires on the concrete inputs used below).
mutual

def parseP : Nat → Nat → CState → CState
  | 0, _, s => errS s
  | fuel + 1, prec, s =>
    let s := nextToken s
    match pfxRule s.previous.type with
    | none => errS s
    | some k =>
      let s := runPfx fuel k s
      parseLoop fuel prec s

def parseLoop : Nat → Nat → CState → CState
  | 0, _, s => errS s
  | fuel + 1, prec, s =>
    if prec < precOf s.current.type then
      let s := nextToken s
      if hasInfixRule s.previous.type then parseLoop fuel prec (infixCompile fuel s)
      else errS s
    else s

def runPfx : Nat → PfxKind → CState → CState
  | 0, _, s => errS s
  | fuel + 1, .grouping, s => grouping fuel s
  | fuel + 1, .unary, s => unaryOp fuel s
  | _ + 1, .ident, s => identifier s
  | _ + 1, .literal, s => literal s
  | _ + 1, .strLit, s => stringLit s

def grouping : Nat → CState → CState
  | 0, s => errS s
  | fuel + 1, s => consume (expressionP fuel s) .tokRparen

def unaryOp : Nat → CState → CState
  | 0, s => errS s
  | fuel + 1, s =>
    let opType := s.previous.type
    let s := ignoreNewlines fuel s
    let s := parseP fuel (precOf opType) s
    match opType with
    | .tokNot => emitOp s .opNot
    | _ => errS s

def infixCompile : Nat → CState → CState
  | 0, s => errS s
  | fuel + 1, s =>
    let opType := s.previous.type
    let s := ignoreNewlines fuel s
    let s := parseP fuel (precOf opType) s
    match opType with
    | .tokPlus => emitOp s .opAdd
    | .tokMinus => emitOp s .opMinus
    | .tokMultiply => emitOp s .opMultiply
    | .tokDivide => emitOp s .opDivide
    | .tokGt => emitOp s .opGt
    | .tokLt => emitOp s .opLt
    | .tokGte => emitOp s .opGte
    | .tokLte => emitOp s .opLte
    | .tokEq => emitOp s .opEq
    | .tokNeq => emitOp s .opNeq
    | .tokAssign => emitOp s .opAssign
    | _ => errS s

def expressionP : Nat → CState → CState
  | 0, s => errS s
  | fuel + 1, s => parseP fuel 1 s

def ignoreNewlines : Nat → CState → CState
  | 0, s => errS s
  | fuel + 1, s => (matchLine fuel s).1

def matchLine : Nat → CState → CState × Bool
  | 0, s => (errS s, false)
  | fuel + 1, s =>
    match matchTok s .tokNewline with
    | (s, false) => (s, false)
    | (s, true) => (newlineLoop fuel s, true)

def newlineLoop : Nat → CState → CState
  | 0, s => errS s
  | fuel + 1, s =>
    match matchTok s .tokNewline with
    | (s, true) => newlineLoop fuel s
    | (s, false) => s

def assignStmt : Nat → CState → CState
  | 0, s => errS s
  | fuel + 1, s =>
    let s := consume s .tokIdent
    let name := Value.vstr (copyString s.previous.lexeme)
    let s := consume s .tokAssign
    let s := expressionP fuel s
    let (s, v) := declareVariable s name
    defineVariable s v

def debugStmt : Nat → CState → CState
  | 0, s => errS s
  | fuel + 1, s => emitOp (expressionP fuel s) .opDebug

def blockStmt : Nat → CState → CState
  | 0, s => errS s
  | fuel + 1, s =>
    let s := { s with currentScope := s.currentScope + 1 }
    let s := ignoreNewlines fuel s
    let s := blockLoop fuel s
    let s := ignoreNewlines fuel s
    let s := consume s .tokRbrack
    { s with currentScope := s.currentScope - 1 }

def blockLoop : Nat → CState → CState
  | 0, s => errS s
  | fuel + 1, s =>
    let s := declaration fuel s
    let s := ignoreNewlines fuel s
    if s.current.type = .tokRbrack ∨ s.current.type = .tokEof then s
    else blockLoop fuel s

def statement : Nat → CState → CState
  | 0, s => errS s
  | fuel + 1, s =>
    match matchTok s .tokDebug with
    | (s, true) => debugStmt fuel s
    | (s, false) =>
      match matchTok s .tokLbrack with
      | (s, true) => blockStmt fuel s
      | (s, false) => expressionP fuel s

def declaration : Nat → CState → CState
  | 0, s => errS s
  | fuel + 1, s =>
    match matchTok s .tokLet with
    | (s, true) => assignStmt fuel s
    | (s, false) => statement fuel s

end

/-- The top-level statement loop of `obaCompile`. -/
def compileLoop : Nat → CState → CState
  | 0, s => errS s
  | fuel + 1, s =>
    match matchTok s .tokEof with
    | (s, true) => s
    | (s, false) =>
      let s := declaration fuel s
      match matchLine fuel s with
      | (s, true) => compileLoop fuel s
      | (s, false) => consume s .tokEof

/-- The parser's initial `current` token (`TOK_ERROR`, empty). -/
def initToken : Token := ⟨.tokError, [], 0, junkV⟩

/-- Skip a UTF-8 byte-order mark. -/
def skipBOM (cs : List Char) : List Char :=
  match cs with
  | c1 :: c2 :: c3 :: r =>
    if c1 = Char.ofNat 239 ∧ c2 = Char.ofNat 187 ∧ c3 = Char.ofNat 191 then r
    else cs
  | _ => cs

/-- `obaCompile`: initialize parser and compiler, run the statement loop,
append `OP_EXIT`.  The returned state carries both the `hasError` flag
(the C function's return value) and the emitted chunk. -/
def obaCompile (fuel : Nat) (source : List Char) : CState :=
  let s : CState :=
    { rest := skipBOM source, line := 1, current := initToken,
      previous := initToken, hasError := false, localCount := 0,
      currentScope := 0, code := [], constants := [] }
  let s := nextToken s
  let s := ignoreNewlines fuel s
  let s := compileLoop fuel s
  emitOp s .opExit

/-- Interpretation result codes. -/
inductive Res where
  | success
  | compileError
  | runtimeErrorR
deriving DecidableEq, Repr

/-- The dispatch loop `run`, fuelled: `none` means the fuel ran out (the C
loop would keep going). -/
def run : Nat → VMState → Option (Res × VMState)
  | 0, _ => none
  | fuel + 1, vm =>
    match step vm with
    | .ok vm' => run fuel vm'
    | .err vm' => some (.runtimeErrorR, vm')
    | .halt vm' => some (.success, vm')

/-- `obaNewVM`: zeroed state, empty globals, stack and frame pointers at
their bases. -/
def obaNewVM : VMState := ⟨[], fun _ => emptyFrame, 0, initTable, []⟩

/-- Modelled from the spec: the `ObjFunction*`-returning `obaCompile` that
`obaInterpret` in `oba_vm.c` calls is not under the sources (the compiler
file present is an older revision whose `obaCompile` returns the
`hasError` flag directly).  Per the spec, compilation yields a function
only when no error was recorded: "If the flag is set at end of
compilation, `interpret` returns `COMPILE_ERROR` and execution does not
start."  So the result is `none` exactly when `hasError` is set, and
otherwise the compiled top-level function. -/
def obaCompileFn (fuel : Nat) (source : List Char) : Option VFunc :=
  let s := obaCompile fuel source
  if s.hasError then none else some ⟨0, s.code, s.constants, 0⟩

/-- `obaInterpret` from `oba_vm.c`: compile; on a failed compile return
`COMPILE_ERROR` without touching the VM; otherwise install the compiled
function in the base frame (note: the frame *pointer* is not reset) and
run.  `interpret`'s NULL-code check returns `SUCCESS` without running; a
NULL function in the active frame would be a NULL dereference in C,
modelled as `none`. -/
def obaInterpret (cfuel rfuel : Nat) (vm : VMState) (source : List Char) :
    Option (Res × VMState) :=
  match obaCompileFn cfuel source with
  | none => some (.compileError, vm)
  | some fn =>
    let vm := { vm with frames := updFrames vm.frames 0 ⟨some fn, 0, vm.stack.length⟩ }
    match (vm.frames vm.frameIndex).function with
    | none => none
    | some f =>
      if f.code = [] then some (.success, vm)
      else
        let fr := vm.frames vm.frameIndex
        run rfuel { vm with frames := updFrames vm.frames vm.frameIndex { fr with ip := 0 } }

-- Table lemmas ----------------------------------------------------------------

theorem getD_set_ne {α : Type} (l : List α) (i j : Nat) (a d : α) (hij : i ≠ j) :
    (l.set i a).getD j d = l.getD j d := by
  simp [List.getD_eq_getElem?_getD, List.getElem?_set_ne hij]

theorem getD_set_self {α : Type} (l : List α) (i : Nat) (a d : α) (hi : i < l.length) :
    (l.set i a).getD i d = a := by
  simp [List.getD_eq_getElem?_getD, List.getElem?_set_self hi]

theorem lt_length_of_getD_key_some {l : List Entry} {i : Nat} {k : ObaStr}
    (h : (l.getD i emptyEntry).key = some k) : i < l.length := by
  by_contra hge
  rw [List.getD_eq_getElem?_getD, List.getElem?_eq_none (by omega)] at h
  simp [emptyEntry] at h

theorem findIdx_succ (entries : List Entry) (h i fuel : Nat) :
    findIdx entries h i (fuel + 1) =
      if isStopEntry (entries.getD i emptyEntry) h then some i
      else findIdx entries h ((i + 1) % entries.length) fuel := rfl

theorem findIdx_isStop {entries : List Entry} {h : Nat} :
    ∀ {fuel i j}, findIdx entries h i fuel = some j →
      isStopEntry (entries.getD j emptyEntry) h = true := by
  intro fuel
  induction fuel with
  | zero => intro i j hf; simp [findIdx] at hf
  | succ f ih =>
    intro i j hf
    rw [findIdx_succ] at hf
    by_cases hs : isStopEntry (entries.getD i emptyEntry) h = true
    · rw [if_pos hs] at hf
      cases hf
      exact hs
    · rw [if_neg hs] at hf
      exact ih hf

theorem findIdx_lt_length {entries : List Entry} {h : Nat}
    (hpos : 0 < entries.length) :
    ∀ {fuel i j}, i < entries.length → findIdx entries h i fuel = some j →
      j < entries.length := by
  intro fuel
  induction fuel with
  | zero => intro i j _ hf; simp [findIdx] at hf
  | succ f ih =>
    intro i j hi hf
    rw [findIdx_succ] at hf
    by_cases hs : isStopEntry (entries.getD i emptyEntry) h = true
    · rw [if_pos hs] at hf
      cases hf
      exact hi
    · rw [if_neg hs] at hf
      exact ih (Nat.mod_lt _ hpos) hf

theorem findIdx_set_of_nonstop {entries : List Entry} {h : Nat} {e' : Entry} {i' : Nat}
    (hns : isStopEntry e' h = false) :
    ∀ {fuel s i}, findIdx entries h s fuel = some i → i' ≠ i →
      findIdx (entries.set i' e') h s fuel = some i := by
  intro fuel
  induction fuel with
  | zero => intro s i hf; simp [findIdx] at hf
  | succ f ih =>
    intro s i hf hne
    rw [findIdx_succ] at hf
    rw [findIdx_succ]
    by_cases hs : isStopEntry (entries.getD s emptyEntry) h = true
    · rw [if_pos hs] at hf
      cases hf
      have heq : (entries.set i' e').getD s emptyEntry = entries.getD s emptyEntry :=
        getD_set_ne _ _ _ _ _ hne
      rw [heq, if_pos hs]
    · rw [if_neg hs] at hf
      have hgd : (entries.set i' e').getD s emptyEntry = e' ∨
          (entries.set i' e').getD s emptyEntry = entries.getD s emptyEntry := by
        by_cases hii : i' = s
        · subst hii
          by_cases hlen : i' < entries.length
          · exact Or.inl (getD_set_self _ _ _ _ hlen)
          · right; rw [List.set_eq_of_length_le (by omega)]
        · exact Or.inr (getD_set_ne _ _ _ _ _ hii)
      have hns' : ¬ isStopEntry ((entries.set i' e').getD s emptyEntry) h = true := by
        rcases hgd with hgd | hgd <;> rw [hgd]
        · simp [hns]
        · exact hs
      rw [if_neg hns', List.length_set]
      exact ih hf hne

theorem findIdx_set_self {entries : List Entry} {h : Nat} {e' : Entry}
    (hst : isStopEntry e' h = true) :
    ∀ {fuel s i}, findIdx entries h s fuel = some i →
      findIdx (entries.set i e') h s fuel = some i := by
  intro fuel
  induction fuel with
  | zero => intro s i hf; simp [findIdx] at hf
  | succ f ih =>
    intro s i hf
    rw [findIdx_succ] at hf
    rw [findIdx_succ]
    by_cases hs : isStopEntry (entries.getD s emptyEntry) h = true
    · rw [if_pos hs] at hf
      cases hf
      by_cases hlen : s < entries.length
      · rw [getD_set_self _ _ _ _ hlen, if_pos hst]
      · rw [List.set_eq_of_length_le (by omega), if_pos hs]
    · rw [if_neg hs] at hf
      have hne : i ≠ s := by
        intro hcon
        subst hcon
        exact hs (findIdx_isStop hf)
      have heq : (entries.set i e').getD s emptyEntry = entries.getD s emptyEntry :=
        getD_set_ne _ _ _ _ _ hne
      have hns' : ¬ isStopEntry ((entries.set i e').getD s emptyEntry) h = true := by
        rw [heq]; exact hs
      rw [if_neg hns', List.length_set]
      exact ih hf

theorem mod_add_mod_left (a b L : Nat) : (a % L + b) % L = (a + b) % L := by
  conv_lhs => rw [Nat.add_mod]
  conv_rhs => rw [Nat.add_mod]
  rw [Nat.mod_mod]

theorem mod_add_mod_right (a b L : Nat) : (a + b % L) % L = (a + b) % L := by
  conv_lhs => rw [Nat.add_mod]
  conv_rhs => rw [Nat.add_mod]
  rw [Nat.mod_mod]

theorem findIdx_isSome_aux {entries : List Entry} {h : Nat} :
    ∀ fuel s, s < entries.length →
      (∃ n, n < fuel ∧
        isStopEntry (entries.getD ((s + n) % entries.length) emptyEntry) h = true) →
      (findIdx entries h s fuel).isSome := by
  intro fuel
  induction fuel with
  | zero =>
    intro s _ ⟨n, hn, _⟩; omega
  | succ f ih =>
    intro s hs ⟨n, hn, hstop⟩
    by_cases hcur : isStopEntry (entries.getD s emptyEntry) h = true
    · rw [findIdx_succ, if_pos hcur]
      rfl
    · have hn0 : n ≠ 0 := by
        intro hcon
        subst hcon
        rw [Nat.add_zero, Nat.mod_eq_of_lt hs] at hstop
        exact hcur hstop
      have hpos : 0 < entries.length := by omega
      rw [findIdx_succ, if_neg hcur]
      apply ih ((s + 1) % entries.length) (Nat.mod_lt _ hpos)
      refine ⟨n - 1, by omega, ?_⟩
      have harith : ((s + 1) % entries.length + (n - 1)) % entries.length =
          (s + n) % entries.length := by
        rw [mod_add_mod_left]
        congr 1
        omega
      rw [harith]
      exact hstop

theorem findIdx_isSome {entries : List Entry} {h : Nat} {j s : Nat}
    (hj : j < entries.length)
    (hstop : isStopEntry (entries.getD j emptyEntry) h = true)
    (hs : s < entries.length) :
    ∃ i, findIdx entries h s entries.length = some i := by
  have hpos : 0 < entries.length := by omega
  have hsome : (findIdx entries h s entries.length).isSome := by
    apply findIdx_isSome_aux entries.length s hs
    refine ⟨(j + entries.length - s) % entries.length,
      Nat.mod_lt _ hpos, ?_⟩
    have harith : (s + (j + entries.length - s) % entries.length) % entries.length
        = j := by
      rw [mod_add_mod_right]
      have hsum : s + (j + entries.length - s) = j + entries.length := by omega
      rw [hsum, Nat.add_mod_right, Nat.mod_eq_of_lt hj]
    rw [harith]
    exact hstop
  exact Option.isSome_iff_exists.mp hsome

/-- The number of occupied slots of an entry array. -/
def nnCount (l : List Entry) : Nat := l.countP (fun e => e.key.isSome)

theorem nnCount_replicate_empty (n : Nat) :
    nnCount (List.replicate n emptyEntry) = 0 := by
  induction n with
  | zero => rfl
  | succ m ih =>
    rw [List.replicate_succ]
    simp only [nnCount, List.countP_cons] at *
    simp [ih, emptyEntry]

theorem exists_none_of_nnCount_lt {l : List Entry} (hlt : nnCount l < l.length) :
    ∃ j, j < l.length ∧ (l.getD j emptyEntry).key = none := by
  by_contra hc
  push_neg at hc
  have hall : ∀ e ∈ l, (fun e : Entry => e.key.isSome) e = true := by
    intro e he
    obtain ⟨n, hn⟩ := List.mem_iff_getElem?.mp he
    have hnlt : n < l.length := by
      by_contra hge
      rw [List.getElem?_eq_none (by omega)] at hn
      exact Option.noConfusion hn
    have hgd : l.getD n emptyEntry = e := by
      rw [List.getD_eq_getElem?_getD, hn]; rfl
    have := hc n hnlt
    rw [hgd] at this
    simpa [Option.isSome_iff_ne_none] using this
  have := List.countP_eq_length.mpr hall
  rw [nnCount] at hlt
  omega

theorem nnCount_set_le (l : List Entry) (i : Nat) (e : Entry) :
    nnCount (l.set i e) ≤ nnCount l + 1 := by
  induction l generalizing i with
  | nil => simp [nnCount]
  | cons a t ih =>
    cases i with
    | zero =>
      simp only [List.set, nnCount, List.countP_cons]
      have := ih 0
      split <;> split <;> omega
    | succ m =>
      simp only [List.set, nnCount, List.countP_cons]
      have := ih m
      simp only [nnCount] at this
      split <;> omega

theorem reinsertEntry_of_key_none {acc : List Entry} {e : Entry}
    (he : e.key = none) : reinsertEntry acc e = acc := by
  rw [reinsertEntry, he]

theorem reinsertEntry_of_find_none {acc : List Entry} {e : Entry} {k : ObaStr}
    (he : e.key = some k) (hf : findEntry acc k = none) :
    reinsertEntry acc e = acc := by
  rw [reinsertEntry, he]
  simp only [hf]

theorem reinsertEntry_of_find_some {acc : List Entry} {e : Entry} {k : ObaStr}
    {j : Nat} (he : e.key = some k) (hf : findEntry acc k = some j) :
    reinsertEntry acc e = acc.set j e := by
  rw [reinsertEntry, he]
  simp only [hf]

theorem length_reinsert (acc : List Entry) (e : Entry) :
    (reinsertEntry acc e).length = acc.length := by
  rcases he : e.key with _ | k
  · rw [reinsertEntry_of_key_none he]
  · rcases hf : findEntry acc k with _ | j
    · rw [reinsertEntry_of_find_none he hf]
    · rw [reinsertEntry_of_find_some he hf, List.length_set]

theorem nnCount_reinsert_le (acc : List Entry) (e : Entry) :
    nnCount (reinsertEntry acc e) ≤ nnCount acc + 1 := by
  rcases he : e.key with _ | k
  · rw [reinsertEntry_of_key_none he]; omega
  · rcases hf : findEntry acc k with _ | j
    · rw [reinsertEntry_of_find_none he hf]; omega
    · rw [reinsertEntry_of_find_some he hf]
      exact nnCount_set_le ..

theorem length_foldl_reinsert (olds : List Entry) :
    ∀ acc, (olds.foldl reinsertEntry acc).length = acc.length := by
  induction olds with
  | nil => intro acc; rfl
  | cons e t ih =>
    intro acc
    rw [List.foldl_cons, ih, length_reinsert]

theorem nnCount_foldl_le (olds : List Entry) :
    ∀ acc, nnCount (olds.foldl reinsertEntry acc) ≤ nnCount acc + olds.length := by
  induction olds with
  | nil => intro acc; simp
  | cons e t ih =>
    intro acc
    rw [List.foldl_cons]
    have h1 := ih (reinsertEntry acc e)
    have h2 := nnCount_reinsert_le acc e
    simp only [List.length_cons]
    omega

/-- A hash is *findable* in an entry array when the probe sequence for it
stops at an occupied slot whose key carries that hash. -/
def Found (entries : List Entry) (h : Nat) : Prop :=
  ∃ i k, findIdx entries h (h % entries.length) entries.length = some i ∧
    (entries.getD i emptyEntry).key = some k ∧ k.hash = h

theorem findEntry_eq (entries : List Entry) (k : ObaStr) :
    findEntry entries k =
      findIdx entries k.hash (k.hash % entries.length) entries.length := rfl

theorem found_reinsert {h : Nat} {acc : List Entry} (e : Entry)
    (hf : Found acc h) : Found (reinsertEntry acc e) h := by
  obtain ⟨i, k0, hfind, hkey, khash⟩ := hf
  rcases he : e.key with _ | k
  · rw [reinsertEntry_of_key_none he]
    exact ⟨i, k0, hfind, hkey, khash⟩
  · rcases hfe : findEntry acc k with _ | j
    · rw [reinsertEntry_of_find_none he hfe]
      exact ⟨i, k0, hfind, hkey, khash⟩
    · rw [reinsertEntry_of_find_some he hfe]
      by_cases hh : k.hash = h
      · -- the inserted entry probes the same sequence: it lands exactly on `i`
        rw [findEntry_eq, hh] at hfe
        have hij : j = i := by
          rw [hfe] at hfind
          exact Option.some.inj hfind
        subst hij
        have hstop : isStopEntry e h = true := by
          simp [isStopEntry, he, hh]
        have hlt : j < acc.length := lt_length_of_getD_key_some hkey
        refine ⟨j, k, ?_, ?_, hh⟩
        · rw [List.length_set]
          exact findIdx_set_self hstop hfind
        · rw [getD_set_self _ _ _ _ hlt, he]
      · -- a different hash: its slot is disjoint from the found one and the
        -- inserted entry never stops an `h` probe
        have hstopj : isStopEntry (acc.getD j emptyEntry) k.hash = true := by
          rw [findEntry_eq] at hfe
          exact findIdx_isStop hfe
        have hji : j ≠ i := by
          intro hcon
          subst hcon
          simp only [isStopEntry, hkey] at hstopj
          have : k0.hash = k.hash := by simpa using hstopj
          omega
        have hns : isStopEntry e h = false := by
          simp [isStopEntry, he, hh]
        refine ⟨i, k0, ?_, ?_, khash⟩
        · rw [List.length_set]
          exact findIdx_set_of_nonstop hns hfind hji
        · rw [getD_set_ne _ _ _ _ _ hji]
          exact hkey

theorem found_foldl_preserve {h : Nat} (olds : List Entry) :
    ∀ acc, Found acc h → Found (olds.foldl reinsertEntry acc) h := by
  induction olds with
  | nil => intro acc hf; exact hf
  | cons e t ih =>
    intro acc hf
    rw [List.foldl_cons]
    exact ih _ (found_reinsert e hf)

theorem found_establish {h : Nat} {acc : List Entry} {e : Entry} {k : ObaStr}
    (he : e.key = some k) (hk : k.hash = h) (hnn : nnCount acc < acc.length) :
    Found (reinsertEntry acc e) h := by
  have hpos : 0 < acc.length := by
    have := Nat.zero_le (nnCount acc); omega
  obtain ⟨j, hj, hjnone⟩ := exists_none_of_nnCount_lt hnn
  have hstopj : isStopEntry (acc.getD j emptyEntry) h = true := by
    simp only [isStopEntry]
    rw [hjnone]
  have hs : h % acc.length < acc.length := Nat.mod_lt _ hpos
  obtain ⟨i, hfi⟩ := findIdx_isSome hj hstopj hs
  have hfe : findEntry acc k = some i := by
    rw [findEntry_eq, hk]
    exact hfi
  have hilt : i < acc.length := findIdx_lt_length hpos hs hfi
  rw [reinsertEntry_of_find_some he hfe]
  have hstop : isStopEntry e h = true := by
    simp only [isStopEntry, he]
    simp [hk]
  refine ⟨i, k, ?_, ?_, hk⟩
  · rw [List.length_set]
    exact findIdx_set_self hstop hfi
  · rw [getD_set_self _ _ _ _ hilt, he]

theorem found_foldl_establish {h : Nat} (olds : List Entry) :
    ∀ acc, (∃ e ∈ olds, ∃ k, e.key = some k ∧ k.hash = h) →
      nnCount acc + olds.length ≤ acc.length →
      Found (olds.foldl reinsertEntry acc) h := by
  induction olds with
  | nil =>
    intro acc ⟨e, he, _⟩ _
    exact absurd he (List.not_mem_nil e)
  | cons e t ih =>
    intro acc ⟨e', he', k, hk, khash⟩ hb
    rw [List.foldl_cons]
    rcases List.mem_cons.mp he' with heq | hmem
    · subst heq
      have hnn : nnCount acc < acc.length := by
        simp only [List.length_cons] at hb
        omega
      exact found_foldl_preserve t _ (found_establish hk khash hnn)
    · apply ih (reinsertEntry acc e) ⟨e', hmem, k, hk, khash⟩
      rw [length_reinsert]
      have := nnCount_reinsert_le acc e
      simp only [List.length_cons] at hb
      omega

/-- A hash is *present* in a table when some occupied slot stores a key with
that hash. -/
def presentKey (t : Table) (h : Nat) : Prop :=
  ∃ j, j < t.entries.length ∧
    ∃ k, (t.entries.getD j emptyEntry).key = some k ∧ k.hash = h

theorem growCapacity_gt (len : Nat) : len < growCapacity len := by
  rw [growCapacity]
  split <;> omega

theorem adjustCapacity_found {t : Table} {h cap : Nat}
    (hpres : presentKey t h) (hcap : t.entries.length < cap) :
    Found (adjustCapacity t cap).entries h := by
  obtain ⟨j, hj, k, hk, khash⟩ := hpres
  rw [adjustCapacity]
  apply found_foldl_establish
  · refine ⟨t.entries.getD j emptyEntry, ?_, k, hk, khash⟩
    have : t.entries[j]? = some (t.entries.getD j emptyEntry) := by
      rw [List.getD_eq_getElem?_getD, List.getElem?_eq_getElem hj]
      rfl
    exact List.mem_iff_getElem?.mpr ⟨j, this⟩
  · rw [nnCount_replicate_empty, List.length_replicate]
    omega

/-- The behavior of `tableSet` on a key whose hash is already present:
the entry count is unchanged (the slot was occupied, so `isNewKey` is
false) and any key with that hash then reads the overwritten value. -/
theorem tableSet_overwrite (t : Table) (key : ObaStr) (v : Value)
    (hgrow : tableNeedsGrow t = true) (hpres : presentKey t key.hash) :
    (tableSet t key v).count = t.count ∧
    (∀ k' : ObaStr, k'.hash = key.hash → t.count ≠ 0 →
      tableGet (tableSet t key v) k' = some v) := by
  have hfound : Found (adjustCapacity t (growCapacity t.entries.length)).entries
      key.hash :=
    adjustCapacity_found hpres (growCapacity_gt _)
  obtain ⟨i, k0, hfi, hkey0, hh0⟩ := hfound
  set te := (adjustCapacity t (growCapacity t.entries.length)).entries with hte
  have hilt : i < te.length := lt_length_of_getD_key_some hkey0
  have hcnt : (adjustCapacity t (growCapacity t.entries.length)).count = t.count := rfl
  have hfe : findEntry te key = some i := by rw [findEntry_eq]; exact hfi
  have hnotnew : ¬ (te.getD i emptyEntry).key = none := by rw [hkey0]; simp
  have hset : tableSet t key v = ⟨t.count, te.set i ⟨some key, v⟩⟩ := by
    rw [tableSet]
    simp only [hgrow, if_true, ← hte]
    rw [hfe]
    simp only [hnotnew, if_neg, if_false]
    rw [hcnt]
    simp
  constructor
  · rw [hset]
  · intro k' hk' hc
    rw [hset]
    rw [tableGet]
    rw [if_neg hc]
    have hstop : isStopEntry (⟨some key, v⟩ : Entry) key.hash = true := by
      simp [isStopEntry]
    have hfind' : findEntry (te.set i ⟨some key, v⟩) k' = some i := by
      rw [findEntry_eq, hk', List.length_set]
      exact findIdx_set_self hstop hfi
    rw [hfind']
    show (match ((te.set i ⟨some key, v⟩).getD i emptyEntry).key with
          | none => none
          | some _ => some ((te.set i ⟨some key, v⟩).getD i emptyEntry).value) = some v
    rw [getD_set_self te i ⟨some key, v⟩ emptyEntry hilt]

-- Step lemmas -----------------------------------------------------------------

/-- A step that errors makes `run` return `RUNTIME_ERROR` with that state. -/
theorem run_succ_err {vm x : VMState} (f : Nat) (h : step vm = .err x) :
    run (f + 1) vm = some (.runtimeErrorR, x) := by
  rw [run, h]

/-- `OP_DEFINE_GLOBAL`: reads the name constant, inserts the popped top of
stack into the globals, and continues (there is no error path). -/
theorem step_define_global (top : Value) (rest : List Value) (fs : Nat → Frame)
    (fi : Nat) (fn : VFunc) (ip slots idx : Nat) (g : Table) (out : List Value)
    (name : ObaStr)
    (hfr : fs fi = ⟨some fn, ip, slots⟩)
    (hcode : fn.code.getD ip 255 = opByte .opDefineGlobal)
    (hidx : fn.code.getD (ip + 1) 255 = idx)
    (hname : fn.constants.getD idx junkV = .vstr name) :
    step ⟨top :: rest, fs, fi, g, out⟩ =
      .ok ⟨rest, updFrames fs fi ⟨some fn, ip + 2, slots⟩, fi,
           tableSet g name top, out⟩ := by
  simp only [step, hfr, hcode, byteToOp_opByte, hidx, hname, Value.asString]
  rfl

-- Claims ----------------------------------------------------------------------

/-- C1: the claim says an identifier naming a `let`-bound variable in an
enclosing block (scope depth > 0) compiles to `GET_LOCAL` of its slot.
The code disagrees: `lookupLocal` unconditionally returns −1, so *every*
identifier compiles to `GET_GLOBAL` of a constant-pool index.  On the
program `{ let x = 1  debug x }`, the occurrence of `x` — a local declared
by `let` at scope depth 1 — compiles to `GET_GLOBAL 1`, the compile
records no error, and no `GET_LOCAL` byte appears in the chunk. -/
theorem c1_local_let_compiles_to_get_global :
    (∀ (s : CState) (name : Value), lookupLocal s name = -1) ∧
    (obaCompile 300 ("\x7b\nlet x = 1\ndebug x\n\x7d\n").data).hasError = false ∧
    (obaCompile 300 ("\x7b\nlet x = 1\ndebug x\n\x7d\n").data).code =
      [opByte .opConstant, 0, opByte .opGetGlobal, 1, opByte .opDebug,
       opByte .opExit] ∧
    opByte .opGetLocal ∉ (obaCompile 300 ("\x7b\nlet x = 1\ndebug x\n\x7d\n").data).code := by
  have hcode : (obaCompile 300 ("\x7b\nlet x = 1\ndebug x\n\x7d\n").data).code =
      [opByte .opConstant, 0, opByte .opGetGlobal, 1, opByte .opDebug,
       opByte .opExit] := rfl
  refine ⟨fun s name => rfl, rfl, hcode, ?_⟩
  rw [hcode]
  decide

/-- C2 counterexample: `OP_CALL 1` on a callee function of arity 0 raises no
runtime error — the VM pushes a frame for the function and enters it
(frame pointer 1, its function installed with ip 0), refuting the claim's
assertion that an arity mismatch raises a runtime error instead of
entering the function. -/
theorem c2_arity_mismatch_not_checked :
    ∃ vm', step ⟨[.vnum 5, .vfn 0 [opByte .opExit] [] 7],
        updFrames (fun _ => emptyFrame) 0
          ⟨some ⟨0, [opByte .opCall, 1], [], 0⟩, 0, 0⟩,
        0, initTable, []⟩ = .ok vm' ∧
      vm'.frameIndex = 1 ∧
      (vm'.frames 1).function = some ⟨0, [opByte .opExit], [], 7⟩ ∧
      (vm'.frames 1).ip = 0 ∧ (0 : Nat) ≠ 1 :=
  ⟨_, rfl, rfl, rfl, rfl, by decide⟩

/-- C2 amended: on `OP_CALL argc`, a callee that is not a function raises a
runtime error and `run` returns `RUNTIME_ERROR`; a callee that *is* a
function is entered unconditionally — no arity comparison happens — with a
new frame `⟨callee, ip 0, slots = stackTop − argc − 1⟩` at the next frame
index, whenever the frame bound admits it. -/
theorem c2_call_amended (stack : List Value) (fs : Nat → Frame) (fi : Nat)
    (fn : VFunc) (ip slots argc : Nat) (g : Table) (out : List Value)
    (hfr : fs fi = ⟨some fn, ip, slots⟩)
    (hcode : fn.code.getD ip 255 = opByte .opCall)
    (hargc : fn.code.getD (ip + 1) 255 = argc) :
    (∀ a c k i, stack.getD argc junkV = .vfn a c k i →
      ¬ FRAMES_MAX < fi + 1 →
      step ⟨stack, fs, fi, g, out⟩ =
        .ok ⟨stack,
             updFrames (updFrames fs fi ⟨some fn, ip + 2, slots⟩) (fi + 1)
               ⟨some ⟨a, c, k, i⟩, 0, stack.length - argc - 1⟩,
             fi + 1, g, out⟩) ∧
    (isFunctionV (stack.getD argc junkV) = false →
      step ⟨stack, fs, fi, g, out⟩ =
        .err ⟨[], updFrames fs fi ⟨some fn, ip + 2, slots⟩, fi, g, out⟩ ∧
      ∀ f, run (f + 1) ⟨stack, fs, fi, g, out⟩ =
        some (.runtimeErrorR,
              ⟨[], updFrames fs fi ⟨some fn, ip + 2, slots⟩, fi, g, out⟩)) := by
  constructor
  · intro a c k i hv hlt
    simp only [step, hfr, hcode, byteToOp_opByte, hargc, hv, callValue, call]
    rw [if_neg hlt]
  · intro hnf
    have hstep : step ⟨stack, fs, fi, g, out⟩ =
        .err ⟨[], updFrames fs fi ⟨some fn, ip + 2, slots⟩, fi, g, out⟩ := by
      rcases hv : stack.getD argc junkV with n | b | s | ⟨a, c, k, i⟩
      · simp only [step, hfr, hcode, byteToOp_opByte, hargc, hv, callValue, call,
          runtimeError, resetStack]
      · simp only [step, hfr, hcode, byteToOp_opByte, hargc, hv, callValue, call,
          runtimeError, resetStack]
      · simp only [step, hfr, hcode, byteToOp_opByte, hargc, hv, callValue, call,
          runtimeError, resetStack]
      · rw [hv] at hnf
        simp [isFunctionV] at hnf
    exact ⟨hstep, fun f => run_succ_err f hstep⟩

/-- C2 witness: a number callee under `OP_CALL 1` errors (and `run` reports
`RUNTIME_ERROR`), and a function callee of arity 3 called with 1 argument
is entered without any error. -/
theorem c2_call_amended_witness :
    (step ⟨[.vnum 5, .vnum 9],
        updFrames (fun _ => emptyFrame) 0
          ⟨some ⟨0, [opByte .opCall, 1], [], 0⟩, 0, 0⟩,
        0, initTable, []⟩ =
      .err ⟨[], updFrames (updFrames (fun _ => emptyFrame) 0
          ⟨some ⟨0, [opByte .opCall, 1], [], 0⟩, 0, 0⟩) 0
          ⟨some ⟨0, [opByte .opCall, 1], [], 0⟩, 2, 0⟩, 0, initTable, []⟩) ∧
    (step ⟨[.vnum 5, .vfn 3 [] [] 9],
        updFrames (fun _ => emptyFrame) 0
          ⟨some ⟨0, [opByte .opCall, 1], [], 0⟩, 0, 0⟩,
        0, initTable, []⟩ =
      .ok ⟨[.vnum 5, .vfn 3 [] [] 9],
           updFrames (updFrames (updFrames (fun _ => emptyFrame) 0
               ⟨some ⟨0, [opByte .opCall, 1], [], 0⟩, 0, 0⟩) 0
               ⟨some ⟨0, [opByte .opCall, 1], [], 0⟩, 2, 0⟩) 1
             ⟨some ⟨3, [], [], 9⟩, 0, 0⟩,
           1, initTable, []⟩) := by
  constructor
  · exact ((c2_call_amended [.vnum 5, .vnum 9]
      (updFrames (fun _ => emptyFrame) 0 ⟨some ⟨0, [opByte .opCall, 1], [], 0⟩, 0, 0⟩)
      0 ⟨0, [opByte .opCall, 1], [], 0⟩ 0 0 1 initTable []
      rfl rfl rfl).2 rfl).1
  · exact (c2_call_amended [.vnum 5, .vfn 3 [] [] 9]
      (updFrames (fun _ => emptyFrame) 0 ⟨some ⟨0, [opByte .opCall, 1], [], 0⟩, 0, 0⟩)
      0 ⟨0, [opByte .opCall, 1], [], 0⟩ 0 0 1 initTable []
      rfl rfl rfl).1 3 [] [] 9 rfl (by decide)

/-- C3: the claim says the comparison opcodes raise a runtime error whenever
an operand is not a number.  The `BINARY_OP` macro's string branch applies
to them too (the source marks this `Bug!`): running `debug "a" < "b"`
succeeds and prints the concatenation `ab` instead of raising a runtime
error. -/
theorem c3_comparison_concatenates :
    (obaInterpret 300 100 obaNewVM ("debug \"a\" < \"b\"").data).map Prod.fst =
      some .success ∧
    (obaInterpret 300 100 obaNewVM ("debug \"a\" < \"b\"").data).map
        (fun p => p.2.output) =
      some [Value.vstr (copyString ['a', 'b'])] :=
  ⟨rfl, rfl⟩

/-- C4: if compilation records an error (the `hasError` flag is set at the
end), `obaInterpret` returns `COMPILE_ERROR` with the VM state untouched,
and no instruction runs. -/
theorem c4_compile_error_blocks (cfuel rfuel : Nat) (vm : VMState)
    (source : List Char)
    (h : (obaCompile cfuel source).hasError = true) :
    obaInterpret cfuel rfuel vm source = some (.compileError, vm) := by
  have hc : obaCompileFn cfuel source = none := by
    rw [obaCompileFn]
    simp only [h, if_true]
  simp only [obaInterpret, hc]

/-- C4 witness: the source `?` is a lexical error; compilation sets the flag
and interpretation reports `COMPILE_ERROR` on an untouched fresh VM. -/
theorem c4_compile_error_blocks_witness :
    (obaCompile 100 ("?").data).hasError = true ∧
    obaInterpret 100 100 obaNewVM ("?").data = some (.compileError, obaNewVM) :=
  ⟨rfl, c4_compile_error_blocks 100 100 obaNewVM (("?").data) rfl⟩

/-- C5 counterexample: a run that calls a function and then hits a runtime
error inside it ends with `RUNTIME_ERROR`, an empty stack — but the frame
pointer still at index 1, not reset to the base frame 0. -/
theorem c5_frames_not_reset :
    (run 6 ⟨[], updFrames (fun _ => emptyFrame) 0
        ⟨some ⟨0, [opByte .opConstant, 0, opByte .opCall, 0],
               [.vfn 0 [opByte .opTrue, opByte .opTrue, opByte .opAdd] [] 1], 0⟩,
         0, 0⟩,
        0, initTable, []⟩).map (fun p => (p.1, p.2.stack.length, p.2.frameIndex)) =
      some (.runtimeErrorR, 0, 1) ∧ (1 : Nat) ≠ 0 :=
  ⟨rfl, by decide⟩

/-- C5 amended: every runtime-error exit of the dispatch loop resets the
value stack to empty (`runtimeError` calls `resetStack`) and leaves the
globals and output alone; the frame pointer is *not* reset — it keeps its
value, except in the frame-overflow path of `call`, which leaves it
incremented past the erroring frame. -/
theorem c5_error_reset_amended (vm vm' : VMState) (h : step vm = .err vm') :
    vm'.stack = [] ∧ vm'.globals = vm.globals ∧ vm'.output = vm.output ∧
      (vm'.frameIndex = vm.frameIndex ∨ vm'.frameIndex = vm.frameIndex + 1) := by
  rcases hfn : (vm.frames vm.frameIndex).function with _ | fn
  · simp only [step, hfn] at h
    exact StepRes.noConfusion h
  · rcases hop : byteToOp (fn.code.getD (vm.frames vm.frameIndex).ip 255) with _ | op
    · simp only [step, hfn, hop] at h
      exact StepRes.noConfusion h
    · cases op <;>
        simp only [step, hfn, hop, binaryOp, callValue, call, runtimeError,
          resetStack] at h <;>
        repeat' split at h
      all_goals first
        | exact StepRes.noConfusion h
        | (cases h; exact ⟨rfl, rfl, rfl, Or.inl rfl⟩)
        | (cases h; exact ⟨rfl, rfl, rfl, Or.inr rfl⟩)

/-- C5 witness: `OP_ADD` on two booleans errors; the resulting state has an
empty stack, the same globals and output, and an unmoved frame pointer. -/
theorem c5_error_reset_amended_witness :
    ∃ x, step ⟨[.vbool true, .vbool true],
        updFrames (fun _ => emptyFrame) 0 ⟨some ⟨0, [opByte .opAdd], [], 0⟩, 0, 0⟩,
        0, initTable, []⟩ = .err x ∧
      (x.stack = [] ∧ x.globals = initTable ∧ x.output = ([] : List Value) ∧
        (x.frameIndex = 0 ∨ x.frameIndex = 0 + 1)) := by
  refine ⟨⟨[], updFrames (updFrames (fun _ => emptyFrame) 0
      ⟨some ⟨0, [opByte .opAdd], [], 0⟩, 0, 0⟩) 0
      ⟨some ⟨0, [opByte .opAdd], [], 0⟩, 1, 0⟩, 0, initTable, []⟩, rfl, ?_⟩
  exact c5_error_reset_amended
    ⟨[.vbool true, .vbool true],
     updFrames (fun _ => emptyFrame) 0 ⟨some ⟨0, [opByte .opAdd], [], 0⟩, 0, 0⟩,
     0, initTable, []⟩ _ rfl

set_option maxRecDepth 4000 in
/-- C6: the claim says a frame is written at depth `d` only when `d < 256`
and a stack value at index `i` only when `i < 256`, overflow raising a
runtime error instead.  The code violates both: (a) `call`'s test
`frame - frames > FRAMES_MAX` is an off-by-one, so an `OP_CALL` at frame
index 255 raises no error and writes the new frame at index 256 — one past
the 256-entry array; (b) `push` has no bound test at all, so a push with
256 stack values already present writes at index 256 without any error. -/
theorem c6_bounds_not_enforced :
    (∃ vm', step ⟨[.vfn 0 [opByte .opExit] [] 7],
        updFrames (fun _ => emptyFrame) 255
          ⟨some ⟨0, [opByte .opCall, 0], [], 0⟩, 0, 0⟩,
        255, initTable, []⟩ = .ok vm' ∧
      vm'.frameIndex = FRAMES_MAX ∧
      (vm'.frames FRAMES_MAX).function = some ⟨0, [opByte .opExit], [], 7⟩ ∧
      ¬ FRAMES_MAX < FRAMES_MAX) ∧
    (∃ vm'', step ⟨List.replicate STACK_MAX junkV,
        updFrames (fun _ => emptyFrame) 0 ⟨some ⟨0, [opByte .opTrue], [], 0⟩, 0, 0⟩,
        0, initTable, []⟩ = .ok vm'' ∧
      vm''.stack.length = STACK_MAX + 1 ∧ ¬ STACK_MAX < STACK_MAX) := by
  constructor
  · exact ⟨_, rfl, rfl, rfl, by decide⟩
  · exact ⟨_, rfl, rfl, by decide⟩

/-- C7 counterexample: two keys with different byte contents but equal hash
fields; after storing under the first, `tableGet` with the second returns
the first's value — refuting the claim that lookup requires equal byte
contents. -/
theorem c7_hash_collision_lookup :
    (['a', 'b'] : List Char) ≠ ['c', 'd'] ∧
    (⟨['a', 'b'], 5⟩ : ObaStr).hash = (⟨['c', 'd'], 5⟩ : ObaStr).hash ∧
    tableGet (tableSet initTable ⟨['a', 'b'], 5⟩ (.vnum 1)) ⟨['c', 'd'], 5⟩ =
      some (.vnum 1) :=
  ⟨by decide, rfl, rfl⟩

/-- C7 amended: the globals-table lookup treats two keys as the same key iff
their hashes are equal — `findEntry` stops on a hash match and never
compares byte contents, so `tableGet` depends on a key only through its
hash. -/
theorem c7_lookup_hash_only (t : Table) (k1 k2 : ObaStr)
    (h : k1.hash = k2.hash) : tableGet t k1 = tableGet t k2 := by
  rw [tableGet, tableGet, findEntry_eq, findEntry_eq, h]

/-- C7 witness: two further same-hash keys read equal results from a
concrete table. -/
theorem c7_lookup_hash_only_witness :
    tableGet (tableSet initTable ⟨['a', 'b'], 5⟩ (.vnum 1)) ⟨['x'], 5⟩ =
      tableGet (tableSet initTable ⟨['a', 'b'], 5⟩ (.vnum 1)) ⟨['y', 'z'], 5⟩ :=
  c7_lookup_hash_only (tableSet initTable ⟨['a', 'b'], 5⟩ (.vnum 1))
    ⟨['x'], 5⟩ ⟨['y', 'z'], 5⟩ rfl

/-- C8: the claim says `a op b op c` parses right-associatively, compiling to
the bytecode of `a op (b op c)`.  The parser's loop runs only while the
upcoming operator's precedence *strictly* exceeds the current level, and
`infixOp` recurses at the *same* level, so an equal-precedence operator:
ends the right operand — left associativity.  `1 - 2 - 3` compiles to
`(1 - 2) - 3`'s shape, not to that of `1 - (2 - 3)`. -/
theorem c8_binary_ops_left_associative :
    (obaCompile 200 ("1 - 2 - 3").data).code =
      [opByte .opConstant, 0, opByte .opConstant, 1, opByte .opMinus,
       opByte .opConstant, 2, opByte .opMinus, opByte .opExit] ∧
    (obaCompile 200 ("1 - (2 - 3)").data).code =
      [opByte .opConstant, 0, opByte .opConstant, 1, opByte .opConstant, 2,
       opByte .opMinus, opByte .opMinus, opByte .opExit] ∧
    (obaCompile 200 ("1 - 2 - 3").data).code ≠
      (obaCompile 200 ("1 - (2 - 3)").data).code := by
  have h1 : (obaCompile 200 ("1 - 2 - 3").data).code =
      [opByte .opConstant, 0, opByte .opConstant, 1, opByte .opMinus,
       opByte .opConstant, 2, opByte .opMinus, opByte .opExit] := rfl
  have h2 : (obaCompile 200 ("1 - (2 - 3)").data).code =
      [opByte .opConstant, 0, opByte .opConstant, 1, opByte .opConstant, 2,
       opByte .opMinus, opByte .opMinus, opByte .opExit] := rfl
  refine ⟨h1, h2, ?_⟩
  rw [h1, h2]
  decide

/-- C9: `OP_SWAP_STACK_TOP` on a stack with at least two values exchanges the
two topmost values; the rest of the stack, the frame pointer, the globals
and the output are unchanged (net stack effect 0), and the instruction
pointer advances by exactly one byte — the opcode has no operands. -/
theorem c9_swap_stack_top (fs : Nat → Frame) (fi : Nat) (fn : VFunc)
    (ip slots : Nat) (a b : Value) (rest : List Value) (g : Table)
    (out : List Value)
    (hfr : fs fi = ⟨some fn, ip, slots⟩)
    (hcode : fn.code.getD ip 255 = opByte .opSwapStackTop) :
    step ⟨a :: b :: rest, fs, fi, g, out⟩ =
      .ok ⟨b :: a :: rest, updFrames fs fi ⟨some fn, ip + 1, slots⟩, fi, g, out⟩ := by
  simp only [step, hfr, hcode, byteToOp_opByte]

/-- C9 witness: swapping on a concrete three-value stack. -/
theorem c9_swap_stack_top_witness :
    step ⟨[.vnum 1, .vnum 2, .vnum 3],
          updFrames (fun _ => emptyFrame) 0
            ⟨some ⟨0, [opByte .opSwapStackTop], [], 0⟩, 0, 0⟩,
          0, initTable, []⟩ =
      .ok ⟨[.vnum 2, .vnum 1, .vnum 3],
           updFrames (updFrames (fun _ => emptyFrame) 0
               ⟨some ⟨0, [opByte .opSwapStackTop], [], 0⟩, 0, 0⟩) 0
             ⟨some ⟨0, [opByte .opSwapStackTop], [], 0⟩, 0 + 1, 0⟩,
           0, initTable, []⟩ :=
  c9_swap_stack_top
    (updFrames (fun _ => emptyFrame) 0
      ⟨some ⟨0, [opByte .opSwapStackTop], [], 0⟩, 0, 0⟩)
    0 ⟨0, [opByte .opSwapStackTop], [], 0⟩ 0 0
    (.vnum 1) (.vnum 2) [.vnum 3] initTable [] rfl rfl

/-- C10: executing `OP_DEFINE_GLOBAL` for a name whose hash is already
present in the globals table raises no error (the step succeeds and
execution continues), does not increase the table's entry count, and every
subsequent lookup of that name (`GET_GLOBAL` reads the table through
`tableGet`) yields the newly stored value — a second top-level `let x`
rebinds `x`.  The hypotheses on the table hold for every table the VM
builds: the grow test accepts every reachable table and `count` counts its
insertions. -/
theorem c10_define_global_overwrites (top : Value) (rest : List Value)
    (fs : Nat → Frame) (fi : Nat) (fn : VFunc) (ip slots idx : Nat) (g : Table)
    (out : List Value) (name : ObaStr)
    (hfr : fs fi = ⟨some fn, ip, slots⟩)
    (hcode : fn.code.getD ip 255 = opByte .opDefineGlobal)
    (hidx : fn.code.getD (ip + 1) 255 = idx)
    (hname : fn.constants.getD idx junkV = .vstr name)
    (hgrow : tableNeedsGrow g = true)
    (hpres : presentKey g name.hash)
    (hcnt : g.count ≠ 0) :
    step ⟨top :: rest, fs, fi, g, out⟩ =
      .ok ⟨rest, updFrames fs fi ⟨some fn, ip + 2, slots⟩, fi,
           tableSet g name top, out⟩ ∧
    (tableSet g name top).count = g.count ∧
    ∀ k' : ObaStr, k'.hash = name.hash →
      tableGet (tableSet g name top) k' = some top := by
  refine ⟨step_define_global top rest fs fi fn ip slots idx g out name
    hfr hcode hidx hname, ?_, ?_⟩
  · exact (tableSet_overwrite g name top hgrow hpres).1
  · intro k' hk'
    exact (tableSet_overwrite g name top hgrow hpres).2 k' hk' hcnt

/-- C10 witness: redefining the global `x` (value 1) to the value 2 keeps the
entry count at 1 and a lookup of `x` afterwards reads 2. -/
theorem c10_define_global_overwrites_witness :
    (tableSet (tableSet initTable (copyString ['x']) (.vnum 1))
        (copyString ['x']) (.vnum 2)).count =
      (tableSet initTable (copyString ['x']) (.vnum 1)).count ∧
    tableGet (tableSet (tableSet initTable (copyString ['x']) (.vnum 1))
        (copyString ['x']) (.vnum 2)) (copyString ['x']) =
      some (.vnum 2) := by
  have h := c10_define_global_overwrites (.vnum 2) []
    (updFrames (fun _ => emptyFrame) 0
      ⟨some ⟨0, [opByte .opDefineGlobal, 0], [.vstr (copyString ['x'])], 0⟩, 0, 0⟩)
    0 ⟨0, [opByte .opDefineGlobal, 0], [.vstr (copyString ['x'])], 0⟩ 0 0 0
    (tableSet initTable (copyString ['x']) (.vnum 1)) [] (copyString ['x'])
    rfl rfl rfl rfl (by decide)
    ⟨7, by decide, copyString ['x'], by rfl, rfl⟩ (by decide)
  exact ⟨h.2.1, h.2.2 (copyString ['x']) rfl⟩

end Oba
